import Mathlib

/-!
Shallow embedding of the file-tree snapshot engine of `prodat`
(`prodat/core/controller/code/driver/file.py`, class `FileCodeDriver`).

Modelling conventions:
- A relative file path is modelled as an abstract identifier with a total
  order standing in for Python's lexicographic string sort (`Nat` is used);
  file contents are byte lists (`List Nat`).
- The working tree under the root (excluding the prodat metadata directory,
  which is modelled separately as the `Store`) is an association list from
  paths to contents.
- md5 digests are modelled as a collision-free fingerprint: the `Digest`
  inductive keeps the exact bytes that were fed to the hash, so two digests
  are equal exactly when the hashed inputs are equal.  This models the
  spec's collision-resistance assumption; md5 collisions are out of scope.
- The Ignore Filter (`_get_tracked_files`, built on `list_all_filepaths`
  and `pathspec` gitignore matching of the prodat directory, `.git` and
  `.prodatignore` — sources not present in the repository snapshot) is
  modelled from the spec as a Boolean predicate over relative paths, held
  fixed for a scenario: a path is tracked iff a file exists at it and the
  predicate does not ignore it.
-/

namespace Prodat

/-- Decidable equality for `Except` results (used to evaluate the driver's
outcomes on concrete inputs). -/
instance exceptDecEq {ε α : Type} [DecidableEq ε] [DecidableEq α] :
    DecidableEq (Except ε α)
  | Except.ok a, Except.ok b =>
    if h : a = b then isTrue (by rw [h])
    else isFalse (fun hc => h (Except.ok.inj hc))
  | Except.ok _, Except.error _ => isFalse (fun hc => Except.noConfusion hc)
  | Except.error _, Except.ok _ => isFalse (fun hc => Except.noConfusion hc)
  | Except.error e, Except.error f =>
    if h : e = f then isTrue (by rw [h])
    else isFalse (fun hc => h (Except.error.inj hc))

/-- A root-relative file path.  The source manipulates these as strings;
they are modelled as an abstract identifier type whose total order stands
in for the code-point lexicographic order Python's `sorted` uses. -/
abbrev Path := Nat

/-- File contents as a list of bytes. -/
abbrev Content := List Nat

/-- Working tree: association list mapping relative paths to file bytes. -/
abbrev Tree := List (Path × Content)

/-- A collision-free model of the md5 digests used by the driver.
`file c` models `_get_filehash` (md5 of a file's byte stream, file.py
lines 132-147); `tree cs` models `checksumdir.dirhash` reduced over the
sorted list of per-file content hashes (see `dirhash` below).  Keeping the
hashed bytes inside the constructor models md5 as injective (the spec's
collision-resistance assumption). -/
inductive Digest where
  | file : Content → Digest
  | tree : List Content → Digest
deriving DecidableEq

/-- Error kinds raised by the driver (prodat.core.util.exceptions; the
module itself is not in the snapshot, but the kinds and the sites raising
them are all in file.py). -/
inductive DriverError where
  | pathDoesNotExist
  | fileIOError
  | unstagedChanges
  | codeNotInitialized
  | commitDoesNotExist
deriving DecidableEq

/-- Association-list lookup by key (first match), used for both the working
tree and the store. -/
def alookup {α β : Type} [DecidableEq α] (k : α) : List (α × β) → Option β
  | [] => none
  | (a, b) :: l => if a = k then some b else alookup k l

/-- Remove every binding of a key (models deleting the file at that path). -/
def aerase {α β : Type} [DecidableEq α] (k : α) : List (α × β) → List (α × β)
  | [] => []
  | e :: l => if e.1 = k then aerase k l else e :: aerase k l

/-- Overwrite-or-create a binding (models `shutil.copy2` onto a path). -/
def ainsert {α β : Type} [DecidableEq α] (k : α) (v : β) (l : List (α × β)) :
    List (α × β) :=
  (k, v) :: aerase k l

/-- Apply a function to the value bound to a key (first match), keeping the
key set and order unchanged. -/
def aupdate {α β : Type} [DecidableEq α] (k : α) (f : β → β) :
    List (α × β) → List (α × β)
  | [] => []
  | (a, b) :: l => if a = k then (a, f b) :: l else (a, b) :: aupdate k f l

/-- Path comparison as Python's `sorted` uses it (total order on paths). -/
def pathLe (a b : Path) : Bool := decide (a ≤ b)

/-- Insert into a list kept sorted by a comparator. -/
def insertLe {α : Type} (le : α → α → Bool) (x : α) : List α → List α
  | [] => [x]
  | y :: ys => if le x y then x :: y :: ys else y :: insertLe le x ys

/-- Insertion sort by a comparator. -/
def sortBy {α : Type} (le : α → α → Bool) (l : List α) : List α :=
  l.foldr (insertLe le) []

/-- `sorted(...)` over relative paths (file.py line 94). -/
def sortPaths (l : List Path) : List Path := sortBy pathLe l

/-- Lexicographic order on byte lists, used to model the canonical
reordering `sorted(hashvalues)` performed inside `checksumdir.dirhash`
(the real code sorts the md5 hex strings; any fixed linear order on the
hashed inputs is an equivalent canonical form under the injective-digest
model). -/
def contentLe : Content → Content → Bool
  | [], _ => true
  | _ :: _, [] => false
  | a :: as, b :: bs =>
    if a < b then true else if b < a then false else contentLe as bs

/-- Model of `checksumdir.dirhash` (called by `_get_dirhash`, file.py
lines 149-153) on a directory holding the given files.  checksumdir
(>= 1.2.0, as pinned in setup.py) walks the directory, collects the md5
hash of each regular file's bytes, and — because `include_paths` defaults
to `False` — appends no path information; `_reduce_hash` then sorts the
collected hash values and hashes their concatenation.  Hence the result
depends only on the multiset of file contents, never on the file names or
directory structure. -/
def dirhash (cs : List Content) : Digest := Digest.tree (sortBy contentLe cs)

/-- Modelled from the spec: the Ignore Filter of §4.1 (`_get_tracked_files`,
file.py lines 64-95, whose helpers `list_all_filepaths` and the pathspec
gitignore matching are not in the repository snapshot).  A path is tracked
iff a regular file exists at it in the tree and the ignore predicate does
not match it; the result is the sorted list of tracked paths (file.py
line 94). -/
def trackedFiles (ign : Path → Bool) (t : Tree) : List Path :=
  sortPaths ((t.filter (fun e => !ign e.1)).map Prod.fst)

/-- Collect the bytes of each listed path from a tree, failing with
`PathDoesNotExist` when a path has no file — models the copy loop of
`_calculate_commit_hash` (file.py lines 105-119) reading each tracked file
into the temporary directory. -/
def collectContents (t : Tree) : List Path → Except DriverError (List Content)
  | [] => Except.ok []
  | p :: ps =>
    match alookup p t with
    | none => Except.error DriverError.pathDoesNotExist
    | some c => (collectContents t ps).map (fun cs => c :: cs)

/-- `_calculate_commit_hash` (file.py lines 97-130): copy every tracked
file into a temporary directory and return `checksumdir.dirhash` of that
directory.  The temporary directory is removed on every exit path, so the
operation is a pure function of the tree observed during the copy pass. -/
def calculateCommitHash (t : Tree) (tracked : List Path) :
    Except DriverError Digest :=
  (collectContents t tracked).map dirhash

/-- The value `_calculate_commit_hash` computes for the current tracked
set when every tracked file is readable. -/
def contentAt (t : Tree) (p : Path) : Content := (alookup p t).getD []

/-- The fingerprint of the tracked tree (what a successful
`_calculate_commit_hash` over the tracked files returns). -/
def treeFingerprint (ign : Path → Bool) (t : Tree) : Digest :=
  dirhash ((trackedFiles ign t).map (contentAt t))

/-- A commit record ("Manifest"): the parsed lines `relpath,filehash` of
one commit file (file.py lines 207-231). -/
abbrev Manifest := List (Path × Digest)

/-- The on-disk state under `<root>/<prodat-dir>/code/`:
`manifests` are the regular files directly in the code directory (one per
commit, named by the commit hash, holding the manifest lines);
`blobs` are the files `code/<relpath>/<filehash>` holding stored bytes. -/
structure Store where
  manifests : List (Digest × Manifest)
  blobs : List ((Path × Digest) × Content)
deriving DecidableEq

/-- The store with no commits and no blobs (freshly initialized layout). -/
def emptyStore : Store := { manifests := [], blobs := [] }

/-- `list_refs` (file.py lines 293-310): the names of the regular files
directly in the code directory, i.e. the recorded commit hashes. -/
def refs (st : Store) : List Digest := st.manifests.map Prod.fst

/-- `exists_ref` (file.py lines 269-274): membership of a commit id in
`list_refs`. -/
def existsRefB (st : Store) (d : Digest) : Bool :=
  (refs st).any (fun x => decide (x = d))

/-- Full driver state: the initialized flag (`is_initialized`, presence of
the prodat/code layout), the working tree under the root, and the store. -/
structure DriverState where
  initialized : Bool
  tree : Tree
  store : Store
deriving DecidableEq

/-- `_has_unstaged_changes` (file.py lines 155-169): with no tracked files,
unstaged iff there are zero commits; otherwise unstaged iff the current
commit hash is not an existing ref. -/
def hasUnstagedChangesFn (ign : Path → Bool) (t : Tree) (st : Store) :
    Except DriverError Bool :=
  if (trackedFiles ign t).isEmpty then Except.ok (refs st).isEmpty
  else
    (calculateCommitHash t (trackedFiles ign t)).map
      (fun h => !existsRefB st h)

/-- `check_unstaged_changes` (file.py lines 312-320): raises
`UnstagedChanges` when `_has_unstaged_changes` holds, else returns false. -/
def checkUnstagedChanges (ign : Path → Bool) (s : DriverState) :
    Except DriverError Bool :=
  if !s.initialized then Except.error DriverError.codeNotInitialized
  else
    match hasUnstagedChangesFn ign s.tree s.store with
    | Except.error e => Except.error e
    | Except.ok true => Except.error DriverError.unstagedChanges
    | Except.ok false => Except.ok false

/-- `current_hash` (file.py lines 171-175): check for unstaged changes
(raising `UnstagedChanges` if any), then return the current tree hash. -/
def currentHash (ign : Path → Bool) (s : DriverState) :
    Except DriverError Digest :=
  match checkUnstagedChanges ign s with
  | Except.error e => Except.error e
  | Except.ok _ => calculateCommitHash s.tree (trackedFiles ign s.tree)

/-- `current_ref` (file.py lines 239-244): the current working-tree hash,
with no clean-tree precondition. -/
def currentRef (ign : Path → Bool) (s : DriverState) :
    Except DriverError Digest :=
  if !s.initialized then Except.error DriverError.codeNotInitialized
  else calculateCommitHash s.tree (trackedFiles ign s.tree)

/-- Store a blob under `code/<path>/<filehash>` only if absent
(file.py lines 225-228: `if not os.path.isfile(new_blob_path)`). -/
def putBlobIfAbsent (st : Store) (p : Path) (d : Digest) (c : Content) :
    Store :=
  match alookup (p, d) st.blobs with
  | some _ => st
  | none => { st with blobs := ((p, d), c) :: st.blobs }

/-- Append one `relpath,filehash` line to an existing commit record file
(file.py line 231: `f.write(...)` on the handle opened with mode `a+`). -/
def appendManifestLine (st : Store) (h : Digest) (e : Path × Digest) :
    Store :=
  { st with manifests := aupdate h (fun m => m ++ [e]) st.manifests }

/-- The per-file loop of `create_ref` (file.py lines 211-231), with the
reads of the live filesystem made explicit: for each tracked path the
source checks `os.path.isfile` and runs `_get_filehash` on the LIVE file
(observation `t1`, lines 213 and 224), then copies the LIVE file into the
blob store (observation `t2`, line 228) — two further read passes distinct
from the temporary-copy pass that produced the commit hash.  A vanished
file aborts with an error (`FileIOError` at line 214; the later
`PathDoesNotExist` of `_get_filehash` is collapsed into the same
observation), leaving every line already appended in place.  The blob is
keyed by the digest of the `t1` bytes but stores the `t2` bytes. -/
def commitLoop (t1 t2 : Path → Option Content) (h : Digest) :
    List Path → Store → Except DriverError Unit × Store
  | [], st => (Except.ok (), st)
  | p :: ps, st =>
    match t1 p with
    | none => (Except.error DriverError.fileIOError, st)
    | some c =>
      match t2 p with
      | none => (Except.error DriverError.fileIOError, st)
      | some c2 =>
        let st1 := putBlobIfAbsent st p (Digest.file c) c2
        let st2 := appendManifestLine st1 h (p, Digest.file c)
        commitLoop t1 t2 h ps st2

/-- `create_ref` without a commit id (file.py lines 196-237), with the
distinct filesystem read passes explicit: `t0` is the tree observed while
`_get_tracked_files` enumerates and `_calculate_commit_hash` copies and
hashes the temporary snapshot; `t1` and `t2` are the later live-file
observations of the manifest loop (see `commitLoop`).  If the computed
hash already names a commit, nothing is written.  Otherwise
`open(commit_filepath, "a+")` creates the (empty) commit record file
(line 210) and lines are appended one by one; an error inside the loop
propagates (wrapped as `FileIOError`, lines 232-235) with no cleanup, so
everything written so far stays in the store. -/
def createRefConc (ign : Path → Bool) (st : Store) (t0 : Tree)
    (t1 t2 : Path → Option Content) : Except DriverError Digest × Store :=
  match calculateCommitHash t0 (trackedFiles ign t0) with
  | Except.error e => (Except.error e, st)
  | Except.ok h =>
    if existsRefB st h then (Except.ok h, st)
    else
      match commitLoop t1 t2 h (trackedFiles ign t0)
          { st with manifests := (h, []) :: st.manifests } with
      | (Except.ok _, st') => (Except.ok h, st')
      | (Except.error e, st') => (Except.error e, st')

/-- `create_ref` without a commit id in the absence of concurrent edits:
every filesystem observation sees the same tree. -/
def createRefCore (ign : Path → Bool) (t : Tree) (st : Store) :
    Except DriverError Digest × Store :=
  createRefConc ign st t (fun p => alookup p t) (fun p => alookup p t)

/-- `create_ref` (file.py lines 177-237): requires the layout to be
initialized; with a commit id it validates existence (raising
`CommitDoesNotExist` otherwise) and writes nothing; without one it commits
the current tree (sequential model, no concurrent edits). -/
def createRef (ign : Path → Bool) (s : DriverState)
    (commitId : Option Digest) : Except DriverError Digest × DriverState :=
  if !s.initialized then (Except.error DriverError.codeNotInitialized, s)
  else
    match commitId with
    | some cid =>
      if existsRefB s.store cid then (Except.ok cid, s)
      else (Except.error DriverError.commitDoesNotExist, s)
    | none =>
      ((createRefCore ign s.tree s.store).1,
        { s with store := (createRefCore ign s.tree s.store).2 })

/-- `delete_ref` (file.py lines 276-291): raises `FileIOError` when the
commit does not exist (note: NOT `CommitDoesNotExist`); otherwise removes
only the commit record file. -/
def deleteRef (s : DriverState) (d : Digest) :
    Except DriverError Bool × DriverState :=
  if !s.initialized then (Except.error DriverError.codeNotInitialized, s)
  else if !existsRefB s.store d then (Except.error DriverError.fileIOError, s)
  else
    (Except.ok true,
      { s with store := { s.store with manifests := aerase d s.store.manifests } })

/-- Best-effort removal of the currently tracked files (file.py lines
345-353; missing files and removal failures are ignored). -/
def removeTracked (tracked : List Path) (t : Tree) : Tree :=
  tracked.foldl (fun t p => aerase p t) t

/-- The restore loop of `checkout_ref` (file.py lines 362-386): for each
manifest line fetch the blob at `code/<relpath>/<filehash>` — a missing
blob is a fatal `FileIOError` — and copy it over `root/<relpath>`. -/
def restoreLoop (st : Store) : Manifest → Tree → Except DriverError Unit × Tree
  | [], t => (Except.ok (), t)
  | (p, hd) :: rest, t =>
    match alookup (p, hd) st.blobs with
    | none => (Except.error DriverError.fileIOError, t)
    | some c => restoreLoop st rest (ainsert p c t)

/-- `checkout_ref` (file.py lines 322-388): requires initialization; a
missing commit raises `FileIOError` (note: NOT `CommitDoesNotExist`);
unstaged changes raise `UnstagedChanges`; if the current tree hash equals
the target the call is a no-op; otherwise the tracked files are removed
(best effort) and the manifest's blobs are restored. -/
def checkoutRef (ign : Path → Bool) (s : DriverState) (d : Digest) :
    Except DriverError Bool × DriverState :=
  if !s.initialized then (Except.error DriverError.codeNotInitialized, s)
  else if !existsRefB s.store d then (Except.error DriverError.fileIOError, s)
  else
    match hasUnstagedChangesFn ign s.tree s.store with
    | Except.error e => (Except.error e, s)
    | Except.ok true => (Except.error DriverError.unstagedChanges, s)
    | Except.ok false =>
      match calculateCommitHash s.tree (trackedFiles ign s.tree) with
      | Except.error e => (Except.error e, s)
      | Except.ok h =>
        if h = d then (Except.ok true, s)
        else
          match alookup d s.store.manifests with
          | none =>
            (Except.error DriverError.fileIOError,
              { s with tree := removeTracked (trackedFiles ign s.tree) s.tree })
          | some m =>
            match restoreLoop s.store m
                (removeTracked (trackedFiles ign s.tree) s.tree) with
            | (Except.ok _, t2) => (Except.ok true, { s with tree := t2 })
            | (Except.error e, t2) => (Except.error e, { s with tree := t2 })

/-- The manifest entries `create_ref` records for the given paths when the
live files hold the tree's bytes. -/
def entriesOf (t : Tree) (ps : List Path) : Manifest :=
  ps.map (fun p => (p, Digest.file (contentAt t p)))

/-- Well-formed working tree: each path bound at most once (the filesystem
holds one file per path). -/
def treeWF (t : Tree) : Prop := (t.map Prod.fst).Nodup

/-- Content-addressing integrity of the blob store: every stored blob's
bytes are exactly the bytes its digest names (spec §4.3: no overwrite,
"content-addressing guarantees byte-identity"). -/
def storeGood (st : Store) : Prop :=
  ∀ b ∈ st.blobs, b.1.2 = Digest.file b.2

/-- Every manifest line of every commit has its blob present (integrity of
a non-corrupt store; spec §4.4 calls a missing blob "store corrupt"). -/
def storeComplete (st : Store) : Prop :=
  ∀ e ∈ st.manifests, ∀ en ∈ e.2, (alookup en st.blobs).isSome = true

instance treeWFDecidable (t : Tree) : Decidable (treeWF t) :=
  List.nodupDecidable _

instance storeGoodDecidable (st : Store) : Decidable (storeGood st) :=
  List.decidableBAll _ st.blobs

instance storeCompleteDecidable (st : Store) : Decidable (storeComplete st) :=
  List.decidableBAll _ st.manifests

/-! ### Concrete scenarios

Paths are numbered (0, 1, 2 standing for relative file names such as
`a.txt`, `b.txt`, `c.txt`); byte lists such as `[120]` are file contents. -/

/-- The trivial Ignore Ruleset used in concrete scenarios (no
`.prodatignore` patterns; the metadata and `.git` directories are outside
the modelled tree). -/
def ign0 : Path → Bool := fun _ => false

/-- Tree observed during the hashing pass of a commit that subsequently
fails: files 0 and 1 are present. -/
def c1Tree : Tree := [(0, [0]), (1, [1])]

/-- Live-file observation for the manifest loop of the same commit: file 1
has vanished between the hashing pass and the manifest loop (the spec's
"tracked file vanished between enumeration and read"). -/
def c1Obs : Path → Option Content :=
  fun p => if p = 1 then none else alookup p c1Tree

/-- Store holding one committed snapshot of the tree mapping path 0 to
bytes `[7]`. -/
def demoStore : Store := (createRefCore ign0 [(0, [7])] emptyStore).2

/-- Store after committing the tree mapping path 1 to `[120]`. -/
def c3StoreB : Store := (createRefCore ign0 [(1, [120])] emptyStore).2

/-- ... and then also committing the tree mapping path 2 to `[121]`. -/
def c3StoreBC : Store := (createRefCore ign0 [(2, [121])] c3StoreB).2

/-- Store after committing the tree mapping path 2 to `[121]` (base store
for the round-trip witness). -/
def c3WStore0 : Store := (createRefCore ign0 [(2, [121])] emptyStore).2

/-- ... and then committing the tree mapping path 0 to `[120]`. -/
def c3WStore1 : Store := (createRefCore ign0 [(0, [120])] c3WStore0).2

/-! ### Association-list lemmas -/

theorem alookup_mem {α β : Type} [DecidableEq α] {k : α} {v : β} :
    ∀ {l : List (α × β)}, alookup k l = some v → (k, v) ∈ l := by
  intro l
  induction l with
  | nil => intro h; simp [alookup] at h
  | cons e l ih =>
    intro h
    cases e with
    | mk a b =>
      by_cases he : a = k
      · subst he
        simp only [alookup, if_pos] at h
        cases h
        exact List.mem_cons_self _ _
      · simp only [alookup] at h
        rw [if_neg he] at h
        exact List.mem_cons_of_mem _ (ih h)

theorem alookup_isSome_iff {α β : Type} [DecidableEq α] (k : α) :
    ∀ l : List (α × β), (alookup k l).isSome = true ↔ k ∈ l.map Prod.fst := by
  intro l
  induction l with
  | nil => simp [alookup]
  | cons e l ih =>
    by_cases he : e.1 = k
    · simp [alookup, he]
    · simp [alookup, he, ih, Ne.symm he]

theorem alookup_aerase_ne {α β : Type} [DecidableEq α] {k k' : α}
    (l : List (α × β)) (hne : k' ≠ k) :
    alookup k' (aerase k l) = alookup k' l := by
  induction l with
  | nil => rfl
  | cons e l ih =>
    by_cases he : e.1 = k
    · have he' : e.1 ≠ k' := by rw [he]; exact fun h => hne h.symm
      simp [aerase, alookup, he, he', Ne.symm hne, ih]
    · by_cases he2 : e.1 = k'
      · simp [aerase, alookup, he, he2, hne]
      · simp [aerase, alookup, he, he2, ih]

theorem alookup_aerase_self {α β : Type} [DecidableEq α] (k : α)
    (l : List (α × β)) : alookup k (aerase k l) = none := by
  induction l with
  | nil => rfl
  | cons e l ih =>
    by_cases he : e.1 = k
    · simpa [aerase, he] using ih
    · simpa [aerase, alookup, he] using ih

theorem alookup_ainsert_self {α β : Type} [DecidableEq α] (k : α) (v : β)
    (l : List (α × β)) : alookup k (ainsert k v l) = some v := by
  simp [ainsert, alookup]

theorem alookup_ainsert_ne {α β : Type} [DecidableEq α] {k k' : α} (v : β)
    (l : List (α × β)) (hne : k' ≠ k) :
    alookup k' (ainsert k v l) = alookup k' l := by
  simp only [ainsert, alookup]
  rw [if_neg (fun h => hne h.symm)]
  exact alookup_aerase_ne l hne

theorem aupdate_keys {α β : Type} [DecidableEq α] (k : α) (f : β → β) :
    ∀ l : List (α × β), (aupdate k f l).map Prod.fst = l.map Prod.fst := by
  intro l
  induction l with
  | nil => rfl
  | cons e l ih =>
    by_cases he : e.1 = k
    · cases e; simp_all [aupdate]
    · cases e; simp_all [aupdate]

theorem alookup_aupdate_ne {α β : Type} [DecidableEq α] {k k' : α}
    (f : β → β) (l : List (α × β)) (hne : k' ≠ k) :
    alookup k' (aupdate k f l) = alookup k' l := by
  induction l with
  | nil => rfl
  | cons e l ih =>
    by_cases he : e.1 = k
    · have he' : e.1 ≠ k' := by rw [he]; exact fun h => hne h.symm
      cases e; simp_all [aupdate, alookup]
    · by_cases he2 : e.1 = k'
      · cases e; simp_all [aupdate, alookup]
      · cases e; simp_all [aupdate, alookup]

theorem alookup_aupdate_self {α β : Type} [DecidableEq α] (k : α)
    (f : β → β) (l : List (α × β)) :
    alookup k (aupdate k f l) = (alookup k l).map f := by
  induction l with
  | nil => rfl
  | cons e l ih =>
    by_cases he : e.1 = k
    · cases e; simp_all [aupdate, alookup]
    · cases e; simp_all [aupdate, alookup]

/-! ### Sorting lemmas -/

theorem insertLe_perm {α : Type} (le : α → α → Bool) (x : α) :
    ∀ l : List α, (insertLe le x l).Perm (x :: l) := by
  intro l
  induction l with
  | nil => exact List.Perm.refl _
  | cons y ys ih =>
    by_cases h : le x y
    · simp [insertLe, h]
    · simp only [insertLe, h, if_neg, Bool.false_eq_true, not_false_iff]
      exact (List.Perm.cons y ih).trans (List.Perm.swap x y ys)

theorem sortBy_perm {α : Type} (le : α → α → Bool) :
    ∀ l : List α, (sortBy le l).Perm l := by
  intro l
  induction l with
  | nil => exact List.Perm.refl _
  | cons y ys ih =>
    exact (insertLe_perm le y (sortBy le ys)).trans (List.Perm.cons y ih)

theorem mem_sortPaths {p : Path} {l : List Path} :
    p ∈ sortPaths l ↔ p ∈ l :=
  (sortBy_perm pathLe l).mem_iff

theorem sortPaths_nodup {l : List Path} (h : l.Nodup) :
    (sortPaths l).Nodup :=
  ((sortBy_perm pathLe l).nodup_iff).mpr h

/-! ### Tracked-set lemmas -/

theorem mem_trackedFiles {ign : Path → Bool} {t : Tree} {p : Path} :
    p ∈ trackedFiles ign t ↔ p ∈ (t.filter (fun e => !ign e.1)).map Prod.fst := by
  unfold trackedFiles
  exact mem_sortPaths

theorem mem_keys_of_mem_tracked {ign : Path → Bool} {t : Tree} {p : Path}
    (h : p ∈ trackedFiles ign t) : p ∈ t.map Prod.fst := by
  rw [mem_trackedFiles] at h
  rcases List.mem_map.mp h with ⟨e, he, hp⟩
  exact hp ▸ List.mem_map.mpr ⟨e, List.mem_of_mem_filter he, rfl⟩

theorem ign_false_of_mem_tracked {ign : Path → Bool} {t : Tree} {p : Path}
    (h : p ∈ trackedFiles ign t) : ign p = false := by
  rw [mem_trackedFiles] at h
  rcases List.mem_map.mp h with ⟨e, he, hp⟩
  have := List.of_mem_filter he
  simp only [Bool.not_eq_true'] at this
  rw [← hp]
  exact this

theorem trackedFiles_nodup {ign : Path → Bool} {t : Tree} (h : treeWF t) :
    (trackedFiles ign t).Nodup :=
  sortPaths_nodup
    (((List.filter_sublist t).map Prod.fst).nodup h)

/-! ### Fingerprint computation lemmas -/

theorem collectContents_eq (t : Tree) :
    ∀ ps : List Path, (∀ p ∈ ps, p ∈ t.map Prod.fst) →
      collectContents t ps = Except.ok (ps.map (contentAt t)) := by
  intro ps
  induction ps with
  | nil => intro; rfl
  | cons p ps ih =>
    intro h
    have hp : p ∈ t.map Prod.fst := h p (List.mem_cons_self _ _)
    have hsome : (alookup p t).isSome = true := (alookup_isSome_iff p t).mpr hp
    rcases Option.isSome_iff_exists.mp hsome with ⟨c, hc⟩
    simp only [collectContents, hc,
      ih (fun q hq => h q (List.mem_cons_of_mem _ hq))]
    simp [Except.map, contentAt, hc]

theorem calcHash_tracked (ign : Path → Bool) (t : Tree) :
    calculateCommitHash t (trackedFiles ign t)
      = Except.ok (treeFingerprint ign t) := by
  unfold calculateCommitHash treeFingerprint
  rw [collectContents_eq t _ (fun p hp => mem_keys_of_mem_tracked hp)]
  simp [Except.map]

/-! ### Ref-listing lemmas -/

theorem existsRefB_iff (st : Store) (d : Digest) :
    existsRefB st d = true ↔ d ∈ refs st := by
  simp only [existsRefB, List.any_eq_true, decide_eq_true_eq]
  constructor
  · rintro ⟨x, hx, rfl⟩; exact hx
  · intro h; exact ⟨d, h, rfl⟩

theorem existsRefB_manifests (st : Store) (d : Digest) :
    existsRefB st d = true ↔ (alookup d st.manifests).isSome = true := by
  rw [existsRefB_iff, alookup_isSome_iff]
  rfl

/-! ### Blob-store operation lemmas -/

theorem putBlob_manifests (st : Store) (p : Path) (d : Digest) (c : Content) :
    (putBlobIfAbsent st p d c).manifests = st.manifests := by
  unfold putBlobIfAbsent
  cases alookup (p, d) st.blobs <;> rfl

theorem putBlob_preserves_some {st : Store} {k : Path × Digest} {c : Content}
    (p : Path) (d : Digest) (c' : Content)
    (h : alookup k st.blobs = some c) :
    alookup k (putBlobIfAbsent st p d c').blobs = some c := by
  unfold putBlobIfAbsent
  cases hb : alookup (p, d) st.blobs with
  | some _ => simpa using h
  | none =>
    by_cases hk : (p, d) = k
    · rw [hk] at hb; rw [h] at hb; cases hb
    · simpa [alookup, hk] using h

theorem putBlob_self_diag {st : Store} (hg : storeGood st) (p : Path)
    (c : Content) :
    alookup (p, Digest.file c) (putBlobIfAbsent st p (Digest.file c) c).blobs
      = some c := by
  unfold putBlobIfAbsent
  cases hb : alookup (p, Digest.file c) st.blobs with
  | some c' =>
    have hmem := alookup_mem hb
    have hcc : Digest.file c = Digest.file c' := hg _ hmem
    have hce : c = c' := Digest.file.inj hcc
    subst hce
    simp [hb]
  | none => simp [alookup]

theorem putBlob_good_diag {st : Store} (hg : storeGood st) (p : Path)
    (c : Content) : storeGood (putBlobIfAbsent st p (Digest.file c) c) := by
  unfold putBlobIfAbsent
  cases hb : alookup (p, Digest.file c) st.blobs with
  | some _ => exact hg
  | none =>
    intro b hbmem
    rcases List.mem_cons.mp hbmem with hhead | htail
    · rw [hhead]
    · exact hg _ htail

/-! ### Commit-loop lemmas -/

theorem commitLoop_refs (t1 t2 : Path → Option Content) (h : Digest) :
    ∀ (ps : List Path) (st : Store),
      ((commitLoop t1 t2 h ps st).2).manifests.map Prod.fst
        = st.manifests.map Prod.fst := by
  intro ps
  induction ps with
  | nil => intro st; rfl
  | cons p ps ih =>
    intro st
    unfold commitLoop
    cases t1 p with
    | none => rfl
    | some c =>
      cases t2 p with
      | none => rfl
      | some c2 =>
        simp only []
        rw [ih]
        simp [appendManifestLine, aupdate_keys, putBlob_manifests]

theorem commitLoop_preserves_blob_some (t1 t2 : Path → Option Content)
    (h : Digest) :
    ∀ (ps : List Path) (st : Store) (k : Path × Digest) (c : Content),
      alookup k st.blobs = some c →
      alookup k ((commitLoop t1 t2 h ps st).2).blobs = some c := by
  intro ps
  induction ps with
  | nil => intro st k c hk; exact hk
  | cons p ps ih =>
    intro st k c hk
    unfold commitLoop
    cases t1 p with
    | none => exact hk
    | some c' =>
      cases t2 p with
      | none => exact hk
      | some c2 =>
        simp only []
        exact ih _ _ _ (putBlob_preserves_some p (Digest.file c') c2 hk)

theorem commitLoop_ok (t : Tree) (h : Digest) :
    ∀ (ps : List Path) (st : Store), (∀ p ∈ ps, p ∈ t.map Prod.fst) →
      (commitLoop (fun q => alookup q t) (fun q => alookup q t) h ps st).1
        = Except.ok () := by
  intro ps
  induction ps with
  | nil => intro st _; rfl
  | cons p ps ih =>
    intro st hmem
    have hp : (alookup p t).isSome = true :=
      (alookup_isSome_iff p t).mpr (hmem p (List.mem_cons_self _ _))
    rcases Option.isSome_iff_exists.mp hp with ⟨c, hc⟩
    unfold commitLoop
    rw [hc]
    simp only []
    exact ih _ (fun q hq => hmem q (List.mem_cons_of_mem _ hq))

theorem commitLoop_manifest_self (t : Tree) (h : Digest) :
    ∀ (ps : List Path) (st : Store), (∀ p ∈ ps, p ∈ t.map Prod.fst) →
      alookup h
        ((commitLoop (fun q => alookup q t) (fun q => alookup q t) h ps st).2).manifests
        = (alookup h st.manifests).map (fun m => m ++ entriesOf t ps) := by
  intro ps
  induction ps with
  | nil =>
    intro st _
    cases hc : alookup h st.manifests <;> simp [commitLoop, entriesOf, hc]
  | cons p ps ih =>
    intro st hmem
    have hp : (alookup p t).isSome = true :=
      (alookup_isSome_iff p t).mpr (hmem p (List.mem_cons_self _ _))
    rcases Option.isSome_iff_exists.mp hp with ⟨c, hc⟩
    unfold commitLoop
    rw [hc]
    simp only []
    rw [ih _ (fun q hq => hmem q (List.mem_cons_of_mem _ hq))]
    have hman : (appendManifestLine (putBlobIfAbsent st p (Digest.file c) c) h
        (p, Digest.file c)).manifests
        = aupdate h (fun m => m ++ [(p, Digest.file c)])
            (putBlobIfAbsent st p (Digest.file c) c).manifests := rfl
    rw [hman, alookup_aupdate_self, putBlob_manifests]
    cases alookup h st.manifests with
    | none => rfl
    | some m => simp [entriesOf, contentAt, hc]

theorem commitLoop_manifest_other (t1 t2 : Path → Option Content)
    (h : Digest) :
    ∀ (ps : List Path) (st : Store) (d : Digest), d ≠ h →
      alookup d ((commitLoop t1 t2 h ps st).2).manifests
        = alookup d st.manifests := by
  intro ps
  induction ps with
  | nil => intro st d _; rfl
  | cons p ps ih =>
    intro st d hd
    unfold commitLoop
    cases t1 p with
    | none => rfl
    | some c =>
      cases t2 p with
      | none => rfl
      | some c2 =>
        simp only []
        rw [ih _ _ hd]
        have hman : (appendManifestLine (putBlobIfAbsent st p (Digest.file c) c2) h
            (p, Digest.file c)).manifests
            = aupdate h (fun m => m ++ [(p, Digest.file c)])
                (putBlobIfAbsent st p (Digest.file c) c2).manifests := rfl
        rw [hman, alookup_aupdate_ne _ _ hd, putBlob_manifests]

theorem commitLoop_blobs (t : Tree) (h : Digest) :
    ∀ (ps : List Path) (st : Store), storeGood st →
      (∀ p ∈ ps, p ∈ t.map Prod.fst) →
      storeGood ((commitLoop (fun q => alookup q t) (fun q => alookup q t) h ps st).2) ∧
      ∀ p ∈ ps,
        alookup (p, Digest.file (contentAt t p))
          ((commitLoop (fun q => alookup q t) (fun q => alookup q t) h ps st).2).blobs
          = some (contentAt t p) := by
  intro ps
  induction ps with
  | nil =>
    intro st hg _
    exact ⟨hg, by intro p hp; cases hp⟩
  | cons p ps ih =>
    intro st hg hmem
    have hp : (alookup p t).isSome = true :=
      (alookup_isSome_iff p t).mpr (hmem p (List.mem_cons_self _ _))
    rcases Option.isSome_iff_exists.mp hp with ⟨c, hc⟩
    have hca : contentAt t p = c := by simp [contentAt, hc]
    unfold commitLoop
    rw [hc]
    simp only []
    have hg1 : storeGood (putBlobIfAbsent st p (Digest.file c) c) :=
      putBlob_good_diag hg p c
    have hg2 : storeGood (appendManifestLine
        (putBlobIfAbsent st p (Digest.file c) c) h (p, Digest.file c)) := hg1
    rcases ih _ hg2 (fun q hq => hmem q (List.mem_cons_of_mem _ hq)) with
      ⟨hgood, hrest⟩
    refine ⟨hgood, ?_⟩
    intro q hq
    rcases List.mem_cons.mp hq with rfl | hqtail
    · rw [hca]
      exact commitLoop_preserves_blob_some _ _ h ps _ _ _
        (putBlob_self_diag hg q c)
    · exact hrest q hqtail

/-! ### Checkout-loop lemmas -/

theorem restoreLoop_ok (st : Store) :
    ∀ (m : Manifest) (t : Tree),
      (∀ e ∈ m, (alookup e st.blobs).isSome = true) →
      (restoreLoop st m t).1 = Except.ok () := by
  intro m
  induction m with
  | nil => intro t _; rfl
  | cons e rest ih =>
    intro t hall
    rcases e with ⟨p, hd⟩
    have hsome : (alookup (p, hd) st.blobs).isSome = true :=
      hall _ (List.mem_cons_self _ _)
    rcases Option.isSome_iff_exists.mp hsome with ⟨c, hc⟩
    unfold restoreLoop
    rw [hc]
    exact ih _ (fun e he => hall e (List.mem_cons_of_mem _ he))

theorem restoreLoop_untouched (st : Store) :
    ∀ (m : Manifest) (t : Tree) (q : Path), q ∉ m.map Prod.fst →
      alookup q (restoreLoop st m t).2 = alookup q t := by
  intro m
  induction m with
  | nil => intro t q _; rfl
  | cons e rest ih =>
    intro t q hq
    rcases e with ⟨p, hd⟩
    have hqp : q ≠ p := by
      intro hqp
      exact hq (by rw [hqp]; exact List.mem_cons_self _ _)
    have hqrest : q ∉ rest.map Prod.fst := by
      intro hmem
      exact hq (List.mem_cons_of_mem _ hmem)
    unfold restoreLoop
    cases hc : alookup (p, hd) st.blobs with
    | none => rfl
    | some c =>
      rw [ih _ _ hqrest]
      exact alookup_ainsert_ne c t hqp

theorem restoreLoop_restores (st : Store) :
    ∀ (m : Manifest) (t : Tree), (m.map Prod.fst).Nodup →
      (∀ e ∈ m, (alookup e st.blobs).isSome = true) →
      ∀ p d c, (p, d) ∈ m → alookup (p, d) st.blobs = some c →
        alookup p (restoreLoop st m t).2 = some c := by
  intro m
  induction m with
  | nil => intro t _ _ p d c hm; cases hm
  | cons e rest ih =>
    intro t hnd hall p d c hm hb
    rcases e with ⟨p0, d0⟩
    have hsome : (alookup (p0, d0) st.blobs).isSome = true :=
      hall _ (List.mem_cons_self _ _)
    rcases Option.isSome_iff_exists.mp hsome with ⟨c0, hc0⟩
    unfold restoreLoop
    rw [hc0]
    rcases List.mem_cons.mp hm with hhead | htail
    · have hp : p = p0 := congrArg Prod.fst hhead
      have hd : d = d0 := congrArg Prod.snd hhead
      subst hp; subst hd
      have hcc : c = c0 := by rw [hb] at hc0; exact Option.some.inj hc0
      subst hcc
      have hnotin : p ∉ rest.map Prod.fst := by
        have := List.nodup_cons.mp hnd
        simpa using this.1
      rw [restoreLoop_untouched st rest _ p hnotin]
      exact alookup_ainsert_self p c t
    · exact ih _ (List.nodup_cons.mp hnd).2
        (fun e he => hall e (List.mem_cons_of_mem _ he)) p d c htail hb

/-! ### Commit operation lemmas -/

theorem createRefCore_ok_exists {ign : Path → Bool} {t : Tree} {st st' : Store}
    {h : Digest} (hr : createRefCore ign t st = (Except.ok h, st')) :
    calculateCommitHash t (trackedFiles ign t) = Except.ok h ∧
    existsRefB st' h = true := by
  unfold createRefCore createRefConc at hr
  split at hr
  · rw [Prod.mk.injEq] at hr
    exact absurd hr.1 (fun hx => Except.noConfusion hx)
  next h0 heq =>
    split at hr
    next he =>
      rw [Prod.mk.injEq] at hr
      have h1 : h0 = h := Except.ok.inj hr.1
      subst h1
      rw [← hr.2]
      exact ⟨heq, he⟩
    next he =>
      split at hr
      next u st'' heq2 =>
        rw [Prod.mk.injEq] at hr
        have h1 : h0 = h := Except.ok.inj hr.1
        subst h1
        refine ⟨heq, ?_⟩
        rw [← hr.2]
        rw [existsRefB_iff]
        show h0 ∈ st''.manifests.map Prod.fst
        have hkeys := commitLoop_refs (fun q => alookup q t) (fun q => alookup q t)
          h0 (trackedFiles ign t) { st with manifests := (h0, []) :: st.manifests }
        rw [heq2] at hkeys
        simp only [] at hkeys
        rw [hkeys]
        exact List.mem_cons_self _ _
      next e st'' heq2 =>
        rw [Prod.mk.injEq] at hr
        exact absurd hr.1 (fun hx => Except.noConfusion hx)

theorem createRefCore_of_exists {ign : Path → Bool} {t : Tree} {st : Store}
    {h : Digest}
    (hh : calculateCommitHash t (trackedFiles ign t) = Except.ok h)
    (he : existsRefB st h = true) :
    createRefCore ign t st = (Except.ok h, st) := by
  unfold createRefCore createRefConc
  rw [hh]
  simp [he]

theorem createRefCore_fresh {ign : Path → Bool} {t : Tree} {st st' : Store}
    {h : Digest} (hg : storeGood st) (hfresh : existsRefB st h = false)
    (hr : createRefCore ign t st = (Except.ok h, st')) :
    alookup h st'.manifests = some (entriesOf t (trackedFiles ign t)) ∧
    (∀ p ∈ trackedFiles ign t,
      alookup (p, Digest.file (contentAt t p)) st'.blobs
        = some (contentAt t p)) ∧
    storeGood st' := by
  have hmemkeys : ∀ p ∈ trackedFiles ign t, p ∈ t.map Prod.fst :=
    fun p hp => mem_keys_of_mem_tracked hp
  unfold createRefCore createRefConc at hr
  split at hr
  · rw [Prod.mk.injEq] at hr
    exact absurd hr.1 (fun hx => Except.noConfusion hx)
  next h0 heq =>
    split at hr
    next he =>
      rw [Prod.mk.injEq] at hr
      have h1 : h0 = h := Except.ok.inj hr.1
      subst h1
      rw [he] at hfresh
      cases hfresh
    next he =>
      split at hr
      next u st'' heq2 =>
        rw [Prod.mk.injEq] at hr
        have h1 : h0 = h := Except.ok.inj hr.1
        subst h1
        have hst : st'' = st' := hr.2
        subst hst
        constructor
        · have hself := commitLoop_manifest_self t h0 (trackedFiles ign t)
            { st with manifests := (h0, []) :: st.manifests } hmemkeys
          rw [heq2] at hself
          simp only [] at hself
          rw [hself]
          have halo : alookup h0
              ({ st with manifests := (h0, []) :: st.manifests} : Store).manifests
              = some [] := by
            simp [alookup]
          rw [halo]
          simp
        · have hblobs := commitLoop_blobs t h0 (trackedFiles ign t)
            { st with manifests := (h0, []) :: st.manifests } hg hmemkeys
          rw [heq2] at hblobs
          simp only [] at hblobs
          exact ⟨hblobs.2, hblobs.1⟩
      next e st'' heq2 =>
        rw [Prod.mk.injEq] at hr
        exact absurd hr.1 (fun hx => Except.noConfusion hx)

theorem removeTracked_not_mem :
    ∀ (ps : List Path) (t : Tree) (q : Path), q ∉ ps →
      alookup q (removeTracked ps t) = alookup q t := by
  intro ps
  induction ps with
  | nil => intro t q _; rfl
  | cons p ps ih =>
    intro t q h
    show alookup q (removeTracked ps (aerase p t)) = alookup q t
    rw [ih _ _ (fun hq => h (List.mem_cons_of_mem _ hq))]
    exact alookup_aerase_ne t
      (fun he => h (by rw [he]; exact List.mem_cons_self _ _))

theorem entriesOf_keys (t : Tree) (ps : List Path) :
    (entriesOf t ps).map Prod.fst = ps := by
  induction ps with
  | nil => rfl
  | cons p ps ih => simp [entriesOf] at ih ⊢; exact ih

theorem checkoutRef_clean_shape {ign : Path → Bool} {s : DriverState}
    {d : Digest} (hinit : s.initialized = true)
    (he : existsRefB s.store d = true)
    (hclean : hasUnstagedChangesFn ign s.tree s.store = Except.ok false) :
    checkoutRef ign s d
      = if treeFingerprint ign s.tree = d then (Except.ok true, s)
        else
          match alookup d s.store.manifests with
          | none =>
            (Except.error DriverError.fileIOError,
              { s with tree := removeTracked (trackedFiles ign s.tree) s.tree })
          | some m =>
            match restoreLoop s.store m
                (removeTracked (trackedFiles ign s.tree) s.tree) with
            | (Except.ok _, t2) => (Except.ok true, { s with tree := t2 })
            | (Except.error e, t2) => (Except.error e, { s with tree := t2 }) := by
  unfold checkoutRef
  rw [hinit, he, hclean, calcHash_tracked]
  rfl

/-! ### Claim theorems -/

/-- C4: for every initialized engine state, `has_unstaged_changes()` with
an empty Tracked Set returns true iff zero Snapshots exist, and with a
non-empty Tracked Set returns true iff the fingerprint computed from the
current Tracked Set is no existing Snapshot's digest; moreover with zero
tracked files and zero Snapshots it is true, and after one commit of the
empty tree it is false. -/
theorem c4_unstaged_characterization :
    (∀ (ign : Path → Bool) (s : DriverState), s.initialized = true →
      (trackedFiles ign s.tree = [] →
        (hasUnstagedChangesFn ign s.tree s.store = Except.ok true ↔
          refs s.store = [])) ∧
      (trackedFiles ign s.tree ≠ [] →
        (hasUnstagedChangesFn ign s.tree s.store = Except.ok true ↔
          treeFingerprint ign s.tree ∉ refs s.store))) ∧
    (∀ ign : Path → Bool,
      hasUnstagedChangesFn ign [] emptyStore = Except.ok true ∧
      hasUnstagedChangesFn ign [] (createRefCore ign [] emptyStore).2
        = Except.ok false) := by
  constructor
  · intro ign s _
    constructor
    · intro hempty
      unfold hasUnstagedChangesFn
      rw [hempty]
      simp [List.isEmpty_iff]
    · intro hne
      unfold hasUnstagedChangesFn
      rw [calcHash_tracked]
      have hni : (trackedFiles ign s.tree).isEmpty = false := by
        cases htf : trackedFiles ign s.tree with
        | nil => exact absurd htf hne
        | cons a l => rfl
      rw [hni]
      simp only [Bool.false_eq_true, if_false, Except.map, Except.ok.injEq]
      rw [Bool.not_eq_true']
      rw [show (existsRefB s.store (treeFingerprint ign s.tree) = false) ↔
        ¬(existsRefB s.store (treeFingerprint ign s.tree) = true) from by simp]
      rw [existsRefB_iff]
  · intro ign
    exact ⟨rfl, rfl⟩

/-- C4 witness: concrete instances of both characterizations. -/
theorem c4_witness :
    hasUnstagedChangesFn ign0 [(0, [1])] emptyStore = Except.ok true ∧
    hasUnstagedChangesFn ign0 [] emptyStore = Except.ok true := by
  constructor
  · exact ((c4_unstaged_characterization.1 ign0
      ⟨true, [(0, [1])], emptyStore⟩ rfl).2 (by decide)).mpr (by decide)
  · exact (c4_unstaged_characterization.2 ign0).1

/-- C10: for every initialized engine state, `current_hash()` raises
`UnstagedChanges` whenever `_has_unstaged_changes()` holds, while
`current_ref()` returns the fingerprint of the same tree with no
clean-tree precondition. -/
theorem c10_current_hash_vs_current_ref :
    ∀ (ign : Path → Bool) (s : DriverState), s.initialized = true →
      (hasUnstagedChangesFn ign s.tree s.store = Except.ok true →
        currentHash ign s = Except.error DriverError.unstagedChanges) ∧
      currentRef ign s = Except.ok (treeFingerprint ign s.tree) := by
  intro ign s hinit
  constructor
  · intro hdirty
    unfold currentHash checkUnstagedChanges
    rw [hinit, hdirty]
    rfl
  · unfold currentRef
    rw [hinit, calcHash_tracked]
    rfl

/-- C10 witness: on a dirty concrete state `current_hash` raises
`UnstagedChanges` while `current_ref` still returns the fingerprint. -/
theorem c10_witness :
    currentHash ign0 ⟨true, [(0, [8])], demoStore⟩
      = Except.error DriverError.unstagedChanges ∧
    currentRef ign0 ⟨true, [(0, [8])], demoStore⟩
      = Except.ok (treeFingerprint ign0 [(0, [8])]) := by
  have h := c10_current_hash_vs_current_ref ign0
    ⟨true, [(0, [8])], demoStore⟩ rfl
  exact ⟨h.1 (by decide), h.2⟩

/-- C5: commit is idempotent — a second `create_ref()` with no intervening
tree change returns the same digest and leaves the whole state (hence the
set of Manifests) unchanged. -/
theorem c5_commit_idempotent :
    ∀ (ign : Path → Bool) (s : DriverState) (h : Digest) (s1 : DriverState),
      createRef ign s none = (Except.ok h, s1) →
      createRef ign s1 none = (Except.ok h, s1) := by
  intro ign s h s1 hr
  cases hbi : s.initialized with
  | false =>
    unfold createRef at hr
    rw [hbi] at hr
    simp at hr
  | true =>
    have hshape : createRef ign s none
        = ((createRefCore ign s.tree s.store).1,
           { s with store := (createRefCore ign s.tree s.store).2 }) := by
      unfold createRef
      rw [hbi]
      rfl
    rw [hshape] at hr
    rcases hcr : createRefCore ign s.tree s.store with ⟨r, st2⟩
    rw [hcr] at hr
    rw [Prod.mk.injEq] at hr
    have hr1 : r = Except.ok h := hr.1
    have hr2 : { s with store := st2 } = s1 := hr.2
    subst hr1
    rcases createRefCore_ok_exists hcr with ⟨hcalc, hex⟩
    have hi1 : s1.initialized = true := by rw [← hr2]; exact hbi
    have hshape1 : createRef ign s1 none
        = ((createRefCore ign s1.tree s1.store).1,
           { s1 with store := (createRefCore ign s1.tree s1.store).2 }) := by
      unfold createRef
      rw [hi1]
      rfl
    rw [hshape1]
    have htree : s1.tree = s.tree := by rw [← hr2]
    have hstore : s1.store = st2 := by rw [← hr2]
    rw [htree, hstore, createRefCore_of_exists hcalc hex]
    rw [Prod.mk.injEq]
    refine ⟨rfl, ?_⟩
    rw [← hr2]

/-- C5 witness: committing the same concrete tree twice returns the same
digest and the same state. -/
theorem c5_witness :
    createRef ign0
        ((createRef ign0 ⟨true, [(0, [7])], emptyStore⟩ none).2) none
      = (Except.ok (Digest.tree [[7]]),
         (createRef ign0 ⟨true, [(0, [7])], emptyStore⟩ none).2) := by
  exact c5_commit_idempotent ign0 ⟨true, [(0, [7])], emptyStore⟩
    (Digest.tree [[7]])
    ((createRef ign0 ⟨true, [(0, [7])], emptyStore⟩ none).2) (by decide)

/-- C8: deleting a Snapshot is frame-limited to its Manifest — the call
succeeds, every stored Blob is unchanged, the working tree is unchanged,
and every other digest's Manifest lookup is unchanged. -/
theorem c8_delete_frame :
    ∀ (s : DriverState) (d d' : Digest), s.initialized = true →
      existsRefB s.store d = true → d' ≠ d →
      (deleteRef s d).1 = Except.ok true ∧
      ((deleteRef s d).2).store.blobs = s.store.blobs ∧
      ((deleteRef s d).2).tree = s.tree ∧
      alookup d' ((deleteRef s d).2).store.manifests
        = alookup d' s.store.manifests := by
  intro s d d' hinit he hne
  have hshape : deleteRef s d
      = (Except.ok true,
         { s with store :=
             { s.store with manifests := aerase d s.store.manifests } }) := by
    unfold deleteRef
    rw [hinit, he]
    rfl
  rw [hshape]
  exact ⟨rfl, rfl, rfl, alookup_aerase_ne _ hne⟩

/-- C8 witness: deleting the only snapshot of a concrete store leaves its
blobs, the tree and lookups of other digests unchanged. -/
theorem c8_witness :
    (deleteRef ⟨true, [(0, [7])], demoStore⟩ (Digest.tree [[7]])).1
      = Except.ok true ∧
    ((deleteRef ⟨true, [(0, [7])], demoStore⟩ (Digest.tree [[7]])).2).store.blobs
      = demoStore.blobs ∧
    ((deleteRef ⟨true, [(0, [7])], demoStore⟩ (Digest.tree [[7]])).2).tree
      = [(0, [7])] ∧
    alookup (Digest.tree [])
        ((deleteRef ⟨true, [(0, [7])], demoStore⟩ (Digest.tree [[7]])).2).store.manifests
      = alookup (Digest.tree []) demoStore.manifests := by
  exact c8_delete_frame ⟨true, [(0, [7])], demoStore⟩ (Digest.tree [[7]])
    (Digest.tree []) rfl (by decide) (by decide)

/-- C6 counterexample: on a missing digest, `delete_ref` and
`checkout_ref` raise `FileIOError`, which is not the `CommitDoesNotExist`
(CommitNotFound) the claim states. -/
theorem c6_counterexample :
    (deleteRef ⟨true, [], emptyStore⟩ (Digest.tree [[1]])).1
      = Except.error DriverError.fileIOError ∧
    (checkoutRef ign0 ⟨true, [], emptyStore⟩ (Digest.tree [[1]])).1
      = Except.error DriverError.fileIOError ∧
    DriverError.fileIOError ≠ DriverError.commitDoesNotExist := by
  exact ⟨rfl, rfl, by decide⟩

/-- C6 (amended): for every digest with no Snapshot, `delete_ref` and
`checkout_ref` fail with `FileIOError` (the engine's IOFailure kind,
rather than CommitNotFound), leaving the store and the working tree
unchanged. -/
theorem c6_missing_commit_error_kind :
    ∀ (ign : Path → Bool) (s : DriverState) (d : Digest),
      s.initialized = true → existsRefB s.store d = false →
      deleteRef s d = (Except.error DriverError.fileIOError, s) ∧
      checkoutRef ign s d = (Except.error DriverError.fileIOError, s) := by
  intro ign s d hinit he
  constructor
  · unfold deleteRef
    rw [hinit, he]
    rfl
  · unfold checkoutRef
    rw [hinit, he]
    rfl

/-- C6 witness: concrete instance of the amended behaviour. -/
theorem c6_witness :
    deleteRef ⟨true, [], emptyStore⟩ (Digest.tree [[2]])
      = (Except.error DriverError.fileIOError, ⟨true, [], emptyStore⟩) ∧
    checkoutRef ign0 ⟨true, [], emptyStore⟩ (Digest.tree [[2]])
      = (Except.error DriverError.fileIOError, ⟨true, [], emptyStore⟩) := by
  exact c6_missing_commit_error_kind ign0 ⟨true, [], emptyStore⟩
    (Digest.tree [[2]]) rfl (by decide)

/-- C7: for every existing Snapshot digest, `checkout_ref` fails with
`UnstagedChanges` (touching nothing) whenever `_has_unstaged_changes()`
holds, and proceeds to success on a clean tree (given the store's
manifest entries all have their blobs, which every reachable store has). -/
theorem c7_checkout_guard :
    ∀ (ign : Path → Bool) (s : DriverState) (d : Digest),
      s.initialized = true → existsRefB s.store d = true →
      (hasUnstagedChangesFn ign s.tree s.store = Except.ok true →
        checkoutRef ign s d = (Except.error DriverError.unstagedChanges, s)) ∧
      (hasUnstagedChangesFn ign s.tree s.store = Except.ok false →
        storeComplete s.store →
        (checkoutRef ign s d).1 = Except.ok true) := by
  intro ign s d hinit he
  constructor
  · intro hdirty
    unfold checkoutRef
    rw [hinit, he, hdirty]
    rfl
  · intro hclean hcomp
    rw [checkoutRef_clean_shape hinit he hclean]
    split
    · rfl
    · split
      next heq =>
        exfalso
        have hm := (existsRefB_manifests s.store d).mp he
        rw [heq] at hm
        simp at hm
      next m heq =>
        split
        next u t2 heq2 => rfl
        next e t2 heq2 =>
          exfalso
          have hall : ∀ en ∈ m, (alookup en s.store.blobs).isSome = true :=
            fun en hen => hcomp _ (alookup_mem heq) en hen
          have h0 := restoreLoop_ok s.store m
            (removeTracked (trackedFiles ign s.tree) s.tree) hall
          rw [heq2] at h0
          cases h0

/-- C7 witness: a dirty concrete state is rejected untouched; the same
store with a clean tree checks out successfully. -/
theorem c7_witness :
    checkoutRef ign0 ⟨true, [(0, [8])], demoStore⟩ (Digest.tree [[7]])
      = (Except.error DriverError.unstagedChanges,
         ⟨true, [(0, [8])], demoStore⟩) ∧
    (checkoutRef ign0 ⟨true, [(0, [7])], demoStore⟩ (Digest.tree [[7]])).1
      = Except.ok true := by
  constructor
  · exact (c7_checkout_guard ign0 ⟨true, [(0, [8])], demoStore⟩
      (Digest.tree [[7]]) rfl (by decide)).1 (by decide)
  · exact (c7_checkout_guard ign0 ⟨true, [(0, [7])], demoStore⟩
      (Digest.tree [[7]]) rfl (by decide)).2 (by decide) (by decide)

/-- C2 (divergence at the failing input): two trees that differ by a pure
rename — different tracked path sets, same bytes — receive the same Tree
Fingerprint, because `checksumdir.dirhash` with its default
`include_paths=False` hashes only the sorted file contents.  The claim
asserts such trees must have different fingerprints. -/
theorem c2_fingerprint_ignores_paths :
    trackedFiles ign0 [(0, [120])] ≠ trackedFiles ign0 [(1, [120])] ∧
    alookup 0 [(0, [120])] = alookup 1 [(1, [120])] ∧
    treeFingerprint ign0 [(0, [120])] = treeFingerprint ign0 [(1, [120])] := by
  exact ⟨by decide, rfl, rfl⟩

/-- C1 (divergence at the failing input): a commit whose hashing pass sees
files 0 and 1 but whose manifest loop finds file 1 vanished aborts with
`FileIOError`, yet leaves a truncated commit record resolvable: the new
fingerprint, absent before the call, afterwards IS an existing ref, and
its Manifest holds only the first line.  The claim requires the snapshot
set to be unchanged and the new fingerprint to not exist after a failed
commit. -/
theorem c1_partial_manifest_resolvable :
    calculateCommitHash c1Tree (trackedFiles ign0 c1Tree)
      = Except.ok (Digest.tree [[0], [1]]) ∧
    existsRefB emptyStore (Digest.tree [[0], [1]]) = false ∧
    (createRefConc ign0 emptyStore c1Tree c1Obs c1Obs).1
      = Except.error DriverError.fileIOError ∧
    existsRefB (createRefConc ign0 emptyStore c1Tree c1Obs c1Obs).2
      (Digest.tree [[0], [1]]) = true ∧
    alookup (Digest.tree [[0], [1]])
      ((createRefConc ign0 emptyStore c1Tree c1Obs c1Obs).2).manifests
      = some [(0, Digest.file [0])] := by
  exact ⟨rfl, rfl, rfl, rfl, rfl⟩

/-- C9 (divergence at the failing input): `create_ref` computes each
manifest line's filehash from one live read (file.py line 224) and copies
the blob bytes in a second live read (line 228); with an edit in between,
the stored blob at key (path, md5-of-[1]) holds the bytes [2] — the
recorded digest and the persisted Blob come from different file versions,
which the claim says can never happen. -/
theorem c9_blob_bytes_from_later_read :
    (createRefConc ign0 emptyStore [(0, [1])]
        (fun _ => some [1]) (fun _ => some [2])).1
      = Except.ok (Digest.tree [[1]]) ∧
    alookup (Digest.tree [[1]])
      ((createRefConc ign0 emptyStore [(0, [1])]
          (fun _ => some [1]) (fun _ => some [2])).2).manifests
      = some [(0, Digest.file [1])] ∧
    alookup (0, Digest.file [1])
      ((createRefConc ign0 emptyStore [(0, [1])]
          (fun _ => some [1]) (fun _ => some [2])).2).blobs
      = some [2] ∧
    ([2] : Content) ≠ [1] := by
  exact ⟨rfl, rfl, rfl, by decide⟩

/-- C3 counterexample: the tree `{0 ↦ [120]}` has a Snapshot committed at
its fingerprint (created earlier from the differently-named tree
`{1 ↦ [120]}`, which shares the fingerprint because paths do not enter
it); `create_ref` on the tree returns that fingerprint.  After mutating
the working tree to the committed `{2 ↦ [121]}` (clean), checkout of the
fingerprint succeeds but leaves tracked path 0 holding nothing — the
bytes [120] reappear at path 1 instead — refuting byte-identical
restoration of every tracked path of T. -/
theorem c3_counterexample :
    (createRefCore ign0 [(1, [120])] emptyStore).1
      = Except.ok (treeFingerprint ign0 [(0, [120])]) ∧
    (createRefCore ign0 [(0, [120])] c3StoreBC).1
      = Except.ok (treeFingerprint ign0 [(0, [120])]) ∧
    (createRefCore ign0 [(0, [120])] c3StoreBC).2 = c3StoreBC ∧
    hasUnstagedChangesFn ign0 [(2, [121])] c3StoreBC = Except.ok false ∧
    (checkoutRef ign0 ⟨true, [(2, [121])], c3StoreBC⟩
        (treeFingerprint ign0 [(0, [120])])).1 = Except.ok true ∧
    0 ∈ trackedFiles ign0 [(0, [120])] ∧
    alookup 0 [(0, [120])] = some [120] ∧
    alookup 0 ((checkoutRef ign0 ⟨true, [(2, [121])], c3StoreBC⟩
        (treeFingerprint ign0 [(0, [120])])).2).tree = none := by
  exact ⟨rfl, rfl, rfl, rfl, rfl, by decide, rfl, rfl⟩

/-- C3 (amended): checkout restores the tree recorded in the Manifest at
the requested fingerprint.  When that Manifest was created by `commit()`
from the tree T itself (a fresh commit, from a content-addressed store),
a later successful checkout of T's fingerprint — unless it no-ops because
the current fingerprint already equals the target — leaves every tracked
path of T holding bytes identical to its content in T; and in all cases
every ignored path is left byte-for-byte untouched. -/
theorem c3_roundtrip_restores_committed_manifest
    (ign : Path → Bool) (T T' : Tree) (store0 store1 : Store) (h : Digest)
    (r : Bool) (s'' : DriverState)
    (hwf : treeWF T) (hgood : storeGood store0)
    (hfresh : existsRefB store0 h = false)
    (hcommit : createRefCore ign T store0 = (Except.ok h, store1))
    (hrun : checkoutRef ign ⟨true, T', store1⟩ h = (Except.ok r, s'')) :
    (∀ q, ign q = true → alookup q s''.tree = alookup q T') ∧
    (calculateCommitHash T' (trackedFiles ign T') ≠ Except.ok h →
      ∀ p ∈ trackedFiles ign T, alookup p s''.tree = some (contentAt T p)) := by
  rcases createRefCore_fresh hgood hfresh hcommit with ⟨hman, hblobs, hgood1⟩
  have he1 : existsRefB store1 h = true := by
    rw [existsRefB_manifests, hman]
    rfl
  have hclean : hasUnstagedChangesFn ign T' store1 = Except.ok false := by
    unfold checkoutRef at hrun
    split at hrun
    next hcond => simp at hcond
    next hcond =>
      split at hrun
      next hcond2 =>
        rw [show ((⟨true, T', store1⟩ : DriverState).store) = store1 from rfl,
          he1] at hcond2
        simp at hcond2
      next hcond2 =>
        split at hrun
        next e heqU => simp at hrun
        next heqU => simp at hrun
        next heqU => exact heqU
  have hshape := @checkoutRef_clean_shape ign ⟨true, T', store1⟩ h rfl he1 hclean
  rw [hshape] at hrun
  by_cases hfp : treeFingerprint ign T' = h
  · rw [if_pos hfp] at hrun
    rw [Prod.mk.injEq] at hrun
    have hs : (⟨true, T', store1⟩ : DriverState) = s'' := hrun.2
    constructor
    · intro q _
      rw [← hs]
    · intro hne
      exfalso
      apply hne
      rw [calcHash_tracked ign T', hfp]
  · rw [if_neg hfp] at hrun
    rw [show (⟨true, T', store1⟩ : DriverState).store = store1 from rfl,
      show (⟨true, T', store1⟩ : DriverState).tree = T' from rfl, hman] at hrun
    simp only [] at hrun
    rcases hres : restoreLoop store1 (entriesOf T (trackedFiles ign T))
        (removeTracked (trackedFiles ign T') T') with ⟨rr, t2⟩
    rw [hres] at hrun
    have hall : ∀ en ∈ entriesOf T (trackedFiles ign T),
        (alookup en store1.blobs).isSome = true := by
      intro en hen
      rcases List.mem_map.mp hen with ⟨p, hp, rfl⟩
      rw [hblobs p hp]
      rfl
    have hrok : rr = Except.ok () := by
      have h0 := restoreLoop_ok store1 (entriesOf T (trackedFiles ign T))
        (removeTracked (trackedFiles ign T') T') hall
      rw [hres] at h0
      exact h0
    subst hrok
    simp only [] at hrun
    have hs : ({ initialized := true, tree := t2, store := store1 } : DriverState)
        = s'' := by
      rw [Prod.mk.injEq] at hrun
      exact hrun.2
    have htree : s''.tree = t2 := by rw [← hs]
    constructor
    · intro q hq
      rw [htree]
      have hq1 : q ∉ (entriesOf T (trackedFiles ign T)).map Prod.fst := by
        rw [entriesOf_keys]
        intro hmem
        rw [ign_false_of_mem_tracked hmem] at hq
        cases hq
      have hq2 : q ∉ trackedFiles ign T' := by
        intro hmem
        rw [ign_false_of_mem_tracked hmem] at hq
        cases hq
      have hu := restoreLoop_untouched store1
        (entriesOf T (trackedFiles ign T))
        (removeTracked (trackedFiles ign T') T') q hq1
      rw [hres] at hu
      rw [hu]
      exact removeTracked_not_mem _ _ _ hq2
    · intro _ p hp
      rw [htree]
      have hnd : ((entriesOf T (trackedFiles ign T)).map Prod.fst).Nodup := by
        rw [entriesOf_keys]
        exact trackedFiles_nodup hwf
      have hmemE : (p, Digest.file (contentAt T p))
          ∈ entriesOf T (trackedFiles ign T) :=
        List.mem_map.mpr ⟨p, hp, rfl⟩
      have hrest := restoreLoop_restores store1
        (entriesOf T (trackedFiles ign T))
        (removeTracked (trackedFiles ign T') T') hnd hall
        p (Digest.file (contentAt T p)) (contentAt T p) hmemE (hblobs p hp)
      rw [hres] at hrest
      exact hrest

/-- C3 witness for the amended round-trip: committing `{0 ↦ [120]}` over a
store already holding `{2 ↦ [121]}`, mutating the tree to the clean
`{2 ↦ [121]}`, and checking out the fingerprint restores path 0 to
[120]. -/
theorem c3_roundtrip_witness :
    alookup 0 ((checkoutRef ign0 ⟨true, [(2, [121])], c3WStore1⟩
        (Digest.tree [[120]])).2).tree = some [120] := by
  have h := c3_roundtrip_restores_committed_manifest ign0 [(0, [120])]
    [(2, [121])] c3WStore0 c3WStore1 (Digest.tree [[120]]) true
    ((checkoutRef ign0 ⟨true, [(2, [121])], c3WStore1⟩
        (Digest.tree [[120]])).2)
    (by decide) (by decide) (by decide) (by decide) rfl
  exact h.2 (by decide) 0 (by decide)

end Prodat
